import Mathlib

/-!
Verification of `src/array_optimizer.py`, an antenna-array excitation
optimizer.  The script tunes per-element phases and amplitudes of a
five-element array so that the simulated far-field gain curve matches a
target pattern.

The embedding below models the algorithmic core:

* `clampAmp` / `clampAmps` — the amplitude-floor loop of `evalAntenna`
  (lines 79-82);
* `npSub`, `npNorm` — numpy 1-D subtraction (with broadcasting) and
  `np.linalg.norm`;
* `gainData`, `evalAntenna` — one oracle evaluation, including the
  degraded all-zero fallback and the error-trace append (lines 73-113);
* `error_function` — the driver's objective closure (line 143);
* `optimizeResult` — the result assembly of `optimize_antenna_array`
  (lines 156-159);
* `normalizeTarget`, `npMax` — the target normalization (line 123);
* `runTrace` — a sequence of evaluations threading the shared `err_vect`.

Numeric values are embedded as exact rationals (the usual idealization of
Python floats); the square-root step of `np.linalg.norm` is kept abstract
as a parameter `sqrt : ℚ → ℝ`, since the reals carry no computable square
root.  Every theorem holds for every `sqrt`, in particular for
`fun q => Real.sqrt q`.
-/

namespace ArrayOptimizer

/-- Number of array elements: `N = 5` (line 74), `array_size = 5` (line 126). -/
def N : ℕ := 5

/-- The amplitude floor ε = `1e-3` (line 80). -/
def ampFloor : ℚ := 1 / 1000

/-- One step of the clamping loop body (line 80):
`if abs(amps[i]) < 1e-3: amps[i] = 1e-3`. -/
def clampAmp (a : ℚ) : ℚ := if |a| < ampFloor then ampFloor else a

/-- The amplitude slice after the `for i in range(N)` loop (lines 79-82).
The source clamps `amps[0] .. amps[N-1]`; under the documented length
invariant `len(phases_amps) = 2N` the slice `phases_amps[N:]` has exactly
`N` entries, so the loop clamps every entry of the slice. -/
def clampAmps (amps : List ℚ) : List ℚ := amps.map clampAmp

/-- Sum of squares of the entries — the quantity whose square root
`np.linalg.norm` returns for a 1-D vector. -/
def sumSq (l : List ℚ) : ℚ := (l.map fun x => x * x).sum

/-- `np.linalg.norm` on a 1-D vector (line 110): the square root of the sum
of squares.  The square-root routine is the abstract parameter `sqrt`. -/
def npNorm (sqrt : ℚ → ℝ) (l : List ℚ) : ℝ := sqrt (sumSq l)

/-- numpy 1-D subtraction `a - b` with broadcasting: defined when the
lengths agree or one operand has length 1; any other shape combination
raises `ValueError`, modelled as `none`. -/
def npSub (a b : List ℚ) : Option (List ℚ) :=
  if a.length = b.length then some (List.zipWith (fun x y => x - y) a b)
  else if a.length = 1 then some (b.map fun y => a.headI - y)
  else if b.length = 1 then some (a.map fun x => x - b.headI)
  else none

/-- `gain_data` (lines 104-107): the oracle's `data_magnitude` result when
the far-field extraction succeeds, `np.zeros(N_samples)` when it raises. -/
def gainData (oracleData : Option (List ℚ)) (nSamples : ℕ) : List ℚ :=
  match oracleData with
  | some g => g
  | none => List.replicate nSamples 0

/-- Observable outcome of one `evalAntenna` call (lines 73-113). -/
structure EvalOutcome where
  /-- the returned `gain_data` (line 113) -/
  gain : List ℚ
  /-- the caller's `phases_amps` buffer after the call: `amps = phases_amps[N:]`
  is a numpy view of it, so `amps[i] = 1e-3` (line 80) writes through -/
  caller : List ℚ
  /-- phase values handed to `SetVariableValue` (line 81), before the
  fixed-precision (3 decimal digits) string encoding -/
  presentedPhases : List ℚ
  /-- amplitude values handed to `SetVariableValue` (line 82), before the
  fixed-precision (3 decimal digits) string encoding -/
  presentedAmps : List ℚ
  /-- the contents of the `err_vect` list after the call (`[]` when no
  trace was supplied) -/
  trace : List ℝ

/-- `evalAntenna` (lines 73-113).  `oracleData` is the outcome of the
guarded far-field extraction `far_field_data.data_magnitude(...)`
(line 105): `some g` when it returns the sequence `g`, `none` when it
raises — the extraction is the only step wrapped in `try/except`.  The
overall result is `none` when the un-guarded norm at line 110 raises a
shape-mismatch `ValueError`; that error propagates to the caller. -/
def evalAntenna (sqrt : ℚ → ℝ) (oracleData : Option (List ℚ)) (nSamples : ℕ)
    (phases_amps : List ℚ) (err_vect : Option (List ℝ))
    (target_pattern : Option (List ℚ)) : Option EvalOutcome :=
  let phases := phases_amps.take N
  let amps := clampAmps (phases_amps.drop N)
  let gain := gainData oracleData nSamples
  match err_vect, target_pattern with
  | some ev, some tp =>
    match npSub gain tp with
    | none => none
    | some diff => some ⟨gain, phases ++ amps, phases, amps, ev ++ [npNorm sqrt diff]⟩
  | ev, _ => some ⟨gain, phases ++ amps, phases, amps, ev.getD []⟩

/-- The driver's objective closure (line 143):
`lambda x: np.linalg.norm(evalAntenna(hfss, setup, Nsamples, x, err_vect, target_pattern) - target_pattern)`.
Returns the scalar error together with the `err_vect` contents after the
call; `none` models an uncaught shape-mismatch `ValueError`. -/
def error_function (sqrt : ℚ → ℝ) (oracleData : Option (List ℚ)) (nSamples : ℕ)
    (err_vect : List ℝ) (target : List ℚ) (x : List ℚ) : Option (ℝ × List ℝ) :=
  match evalAntenna sqrt oracleData nSamples x (some err_vect) (some target) with
  | none => none
  | some out =>
    match npSub out.gain target with
    | none => none
    | some diff => some (npNorm sqrt diff, out.trace)

/-- `array_size = 5` (line 126). -/
def array_size : ℕ := 5

/-- The result assembly of `optimize_antenna_array` (lines 156-159): given
the best vector `result.x` found by the search and the collected
`err_vect`, the function returns
`(result.x[0:array_size], result.x[array_size:], err_vect)`, binding the
first slice to the name `optimized_amplitudes` and the second to the name
`optimized_phases`. -/
def optimizeResult (best : List ℚ) (err_vect : List ℝ) :
    List ℚ × List ℚ × List ℝ :=
  (best.take array_size, best.drop array_size, err_vect)

/-- `np.max` on a 1-D array.  numpy raises on an empty array; the `[]`
case is a junk value and every theorem about `npMax` assumes a nonempty
pattern. -/
def npMax : List ℚ → ℚ
  | [] => 0
  | x :: xs => xs.foldl max x

/-- Target normalization (line 123):
`target_pattern = np.abs(target_pattern) / np.max(np.abs(target_pattern))`. -/
def normalizeTarget (t : List ℚ) : List ℚ :=
  t.map fun x => |x| / npMax (t.map fun y => |y|)

/-- A run of successive `evalAntenna` calls threading the shared
`err_vect`, as the minimizer loop performs (line 148): each element of
`calls` records that call's far-field extraction outcome and its candidate
vector. -/
def runTrace (sqrt : ℚ → ℝ) (nSamples : ℕ) (target : List ℚ) :
    List (Option (List ℚ) × List ℚ) → List ℝ → Option (List ℝ)
  | [], ev => some ev
  | c :: rest, ev =>
    match evalAntenna sqrt c.1 nSamples c.2 (some ev) (some target) with
    | none => none
    | some out => runTrace sqrt nSamples target rest out.trace

/-- C1: `optimize_antenna_array` was specified to return
(optimized amplitudes, optimized phases, error trace), the amplitudes
being the last `N` entries of the best vector (the layout is `N` phases
followed by `N` amplitudes).  Evaluating the result assembly on the
best vector `[1,...,10]` shows the code instead returns the FIRST five
entries (the phase slice) as its first component: the slices at
lines 156-157 are swapped relative to their own variable names and to the
usage at line 170. -/
theorem optimizeResult_first_component_is_phase_slice :
    optimizeResult [1, 2, 3, 4, 5, 6, 7, 8, 9, 10] [] =
      ([1, 2, 3, 4, 5], [6, 7, 8, 9, 10], ([] : List ℝ)) ∧
    ([1, 2, 3, 4, 5] : List ℚ) ≠ [6, 7, 8, 9, 10] := by
  constructor
  · rfl
  · decide

/-- C2: the claim states `evalAntenna` never mutates the caller's vector.
Evaluating the code on the all-zero length-10 vector shows otherwise:
`amps = phases_amps[N:]` is a numpy view, so the clamping write
`amps[i] = 1e-3` lands in the caller's buffer, which afterwards holds
`[0,0,0,0,0, 1e-3, 1e-3, 1e-3, 1e-3, 1e-3]` — not the original vector. -/
theorem evalAntenna_mutates_caller (sqrt : ℚ → ℝ) :
    (evalAntenna sqrt none 1 [0, 0, 0, 0, 0, 0, 0, 0, 0, 0] none none).map
        EvalOutcome.caller =
      some [0, 0, 0, 0, 0, 1/1000, 1/1000, 1/1000, 1/1000, 1/1000] ∧
    ([0, 0, 0, 0, 0, 1/1000, 1/1000, 1/1000, 1/1000, 1/1000] : List ℚ) ≠
      [0, 0, 0, 0, 0, 0, 0, 0, 0, 0] := by
  constructor
  · simp [evalAntenna, clampAmps, clampAmp, ampFloor, gainData, N,
      List.take, List.drop]
  · norm_num

/-- Every successful `evalAntenna` call returns the computed `gain_data`,
the written-through caller buffer and the presented phase/amplitude
slices; only the trace depends on which arguments were supplied. -/
theorem evalAntenna_some_shape (sqrt : ℚ → ℝ) (o : Option (List ℚ)) (n : ℕ)
    (x : List ℚ) (ev : Option (List ℝ)) (tp : Option (List ℚ))
    (out : EvalOutcome) (h : evalAntenna sqrt o n x ev tp = some out) :
    ∃ tr, out = ⟨gainData o n, x.take N ++ clampAmps (x.drop N),
      x.take N, clampAmps (x.drop N), tr⟩ := by
  cases ev with
  | none =>
    refine ⟨[], ?_⟩
    simp only [evalAntenna, Option.some.injEq] at h
    exact h.symm
  | some ev =>
    cases tp with
    | none =>
      refine ⟨ev, ?_⟩
      simp only [evalAntenna, Option.some.injEq] at h
      exact h.symm
    | some tp =>
      cases hsub : npSub (gainData o n) tp with
      | none => simp [evalAntenna, hsub] at h
      | some diff =>
        refine ⟨ev ++ [npNorm sqrt diff], ?_⟩
        simp only [evalAntenna, hsub, Option.some.injEq] at h
        exact h.symm

/-- When a trace and a target are supplied, a successful call appends
exactly one scalar to the supplied trace. -/
theorem evalAntenna_trace_append (sqrt : ℚ → ℝ) (o : Option (List ℚ))
    (n : ℕ) (x : List ℚ) (ev : List ℝ) (tp : List ℚ) (out : EvalOutcome)
    (h : evalAntenna sqrt o n x (some ev) (some tp) = some out) :
    ∃ e, out.trace = ev ++ [e] := by
  cases hsub : npSub (gainData o n) tp with
  | none => simp [evalAntenna, hsub] at h
  | some diff =>
    refine ⟨npNorm sqrt diff, ?_⟩
    simp only [evalAntenna, hsub, Option.some.injEq] at h
    rw [← h]

theorem sumSq_cons (a : ℚ) (l : List ℚ) : sumSq (a :: l) = a * a + sumSq l := by
  simp [sumSq]

/-- Subtracting a vector from the zero vector of the same length gives its
element-wise negation. -/
theorem zipWith_sub_replicate_zero (b : List ℚ) :
    List.zipWith (fun x y => x - y) (List.replicate b.length 0) b =
      b.map fun y => -y := by
  induction b with
  | nil => rfl
  | cons a l ih => simp [List.replicate_succ, ih]

/-- The sum of squares is invariant under element-wise negation. -/
theorem sumSq_neg (b : List ℚ) : sumSq (b.map fun y => -y) = sumSq b := by
  induction b with
  | nil => rfl
  | cons a l ih => simp [sumSq_cons, ih]

/-- C3: when the far-field extraction fails, `evalAntenna` does not raise:
it returns the all-zero pattern of exactly `nSamples` entries, and the
objective computed from that degraded result equals the Euclidean norm of
the (normalized) target pattern, which is also the scalar appended to the
trace. -/
theorem evalAntenna_failure_degraded (sqrt : ℚ → ℝ) (nSamples : ℕ)
    (x : List ℚ) (ev : List ℝ) (target : List ℚ)
    (h : target.length = nSamples) :
    (∃ out, evalAntenna sqrt none nSamples x (some ev) (some target) = some out ∧
      out.gain = List.replicate nSamples 0) ∧
    error_function sqrt none nSamples ev target x =
      some (npNorm sqrt target, ev ++ [npNorm sqrt target]) := by
  subst h
  have hsub : npSub (gainData none target.length) target =
      some (target.map fun y => -y) := by
    simp [npSub, gainData, zipWith_sub_replicate_zero]
  have hnorm : npNorm sqrt (target.map fun y => -y) = npNorm sqrt target := by
    simp [npNorm, sumSq_neg]
  have hsub2 : npSub (List.replicate target.length 0) target =
      some (target.map fun y => -y) := by
    simpa [gainData] using hsub
  constructor
  · exact ⟨⟨List.replicate target.length 0, x.take N ++ clampAmps (x.drop N),
      x.take N, clampAmps (x.drop N), ev ++ [npNorm sqrt target]⟩,
      by simp [evalAntenna, hsub, hsub2, hnorm, gainData], rfl⟩
  · simp only [error_function, evalAntenna, hsub, hnorm]

/-- C4: `evalAntenna` returns a pattern of exactly `nSamples` entries on
the failure path unconditionally, and on the success path whenever the
oracle honours its interface contract of returning sweep-aligned data of
the requested sample count. -/
theorem evalAntenna_length_invariant (sqrt : ℚ → ℝ) (o : Option (List ℚ))
    (n : ℕ) (x : List ℚ) (ev : Option (List ℝ)) (tp : Option (List ℚ))
    (out : EvalOutcome)
    (hOracle : ∀ g, o = some g → g.length = n)
    (h : evalAntenna sqrt o n x ev tp = some out) :
    out.gain.length = n := by
  obtain ⟨tr, rfl⟩ := evalAntenna_some_shape sqrt o n x ev tp out h
  cases o with
  | none => simp [gainData]
  | some g => simp [gainData, hOracle g rfl]

/-- C5: the values presented to the oracle are the unmodified phase slice
and the clamped amplitude slice, where clamping sends any amplitude of
magnitude below ε = 1e-3 to exactly ε and leaves any amplitude of
magnitude at least ε unchanged. -/
theorem evalAntenna_amp_floor (sqrt : ℚ → ℝ) (o : Option (List ℚ)) (n : ℕ)
    (x : List ℚ) (ev : Option (List ℝ)) (tp : Option (List ℚ))
    (out : EvalOutcome) (hx : x.length = 2 * N)
    (h : evalAntenna sqrt o n x ev tp = some out) :
    out.presentedPhases = x.take N ∧
    out.presentedAmps = (x.drop N).map clampAmp ∧
    (∀ a : ℚ, |a| < ampFloor → clampAmp a = ampFloor) ∧
    (∀ a : ℚ, ampFloor ≤ |a| → clampAmp a = a) := by
  obtain ⟨tr, rfl⟩ := evalAntenna_some_shape sqrt o n x ev tp out h
  refine ⟨rfl, rfl, ?_, ?_⟩
  · intro a ha
    simp [clampAmp, ha]
  · intro a ha
    simp [clampAmp, not_lt.mpr ha]

/-- C6: under the length precondition, the objective returns the Euclidean
norm of the element-wise difference `observed - target`, and the scalar
appended to the supplied trace during the call is that same value. -/
theorem error_function_l2_and_trace (sqrt : ℚ → ℝ) (o : Option (List ℚ))
    (n : ℕ) (ev : List ℝ) (target x : List ℚ)
    (h : (gainData o n).length = target.length) :
    error_function sqrt o n ev target x =
      some (npNorm sqrt (List.zipWith (fun a b => a - b) (gainData o n) target),
        ev ++ [npNorm sqrt (List.zipWith (fun a b => a - b) (gainData o n) target)]) := by
  have hsub : npSub (gainData o n) target =
      some (List.zipWith (fun a b => a - b) (gainData o n) target) := by
    simp [npSub, h]
  simp only [error_function, evalAntenna, hsub]

/-- C7: the error trace is append-only and gains exactly one entry per
completed evaluation: a run of `k` objective calls that all complete
extends the supplied trace by exactly `k` entries and preserves the
existing entries as a prefix. -/
theorem runTrace_append_only (sqrt : ℚ → ℝ) (n : ℕ) (target : List ℚ)
    (calls : List (Option (List ℚ) × List ℚ)) (ev ev2 : List ℝ)
    (h : runTrace sqrt n target calls ev = some ev2) :
    ev2.length = ev.length + calls.length ∧ ∃ tail, ev2 = ev ++ tail := by
  induction calls generalizing ev with
  | nil =>
    simp only [runTrace, Option.some.injEq] at h
    subst h
    exact ⟨by simp, [], by simp⟩
  | cons c rest ih =>
    cases hev : evalAntenna sqrt c.1 n c.2 (some ev) (some target) with
    | none => simp [runTrace, hev] at h
    | some out =>
      simp only [runTrace, hev] at h
      obtain ⟨e, hout⟩ := evalAntenna_trace_append sqrt c.1 n c.2 ev target out hev
      obtain ⟨hlen, tail, htail⟩ := ih out.trace h
      constructor
      · rw [hlen, hout]
        simp [Nat.add_assoc, Nat.add_comm 1 rest.length]
      · exact ⟨e :: tail, by rw [htail, hout]; simp⟩

/-- C8: a dimension mismatch between target and observed patterns is fatal:
with a target of length 10 and an oracle that returns a 12-sample pattern,
the objective raises the shape-mismatch error (modelled as `none`) instead
of returning a scalar or a degraded result. -/
theorem error_function_mismatch_fatal (sqrt : ℚ → ℝ) (ev : List ℝ) (x : List ℚ) :
    error_function sqrt (some (List.replicate 12 1)) 12 ev
      (List.replicate 10 0) x = none := by
  have hsub : npSub (gainData (some (List.replicate 12 1)) 12)
      (List.replicate 10 0) = none := by
    simp [npSub, gainData]
  simp only [error_function, evalAntenna, hsub]

/-- The seed and every element of the list are bounded by `foldl max`. -/
theorem le_foldl_max (b : ℚ) (xs : List ℚ) :
    b ≤ xs.foldl max b ∧ ∀ a ∈ xs, a ≤ xs.foldl max b := by
  induction xs generalizing b with
  | nil => simp
  | cons x xs ih =>
    refine ⟨le_trans (le_max_left b x) (ih (max b x)).1, ?_⟩
    intro a ha
    rcases List.mem_cons.mp ha with rfl | ha
    · exact le_trans (le_max_right b a) (ih (max b a)).1
    · exact (ih (max b x)).2 a ha

/-- Every entry of a list is bounded by `npMax`. -/
theorem le_npMax_of_mem {a : ℚ} {l : List ℚ} (h : a ∈ l) : a ≤ npMax l := by
  match l with
  | x :: xs =>
    rcases List.mem_cons.mp h with rfl | h
    · exact (le_foldl_max a xs).1
    · exact (le_foldl_max x xs).2 a h

/-- Division by a positive scalar distributes over `foldl max`. -/
theorem foldl_max_div (c : ℚ) (hc : 0 < c) (xs : List ℚ) (b : ℚ) :
    (xs.map fun x => x / c).foldl max (b / c) = xs.foldl max b / c := by
  induction xs generalizing b with
  | nil => rfl
  | cons x xs ih =>
    simp only [List.map_cons, List.foldl_cons]
    rw [max_div_div_right hc.le, ih]

/-- Division by a positive scalar distributes over `npMax`. -/
theorem npMax_map_div (l : List ℚ) (c : ℚ) (hc : 0 < c) :
    npMax (l.map fun x => x / c) = npMax l / c := by
  cases l with
  | nil => simp [npMax]
  | cons x xs =>
    simp only [List.map_cons, npMax]
    exact foldl_max_div c hc xs x

/-- A pattern with a non-zero entry has a positive maximum magnitude. -/
theorem npMax_abs_pos {t : List ℚ} (h2 : ∃ x ∈ t, x ≠ 0) :
    0 < npMax (t.map fun y => |y|) := by
  obtain ⟨x, hx, hx0⟩ := h2
  exact lt_of_lt_of_le (abs_pos.mpr hx0)
    (le_npMax_of_mem (List.mem_map_of_mem _ hx))

/-- C9: for every non-zero target pattern, normalization yields a pattern
of maximum absolute value exactly 1, and it is idempotent: a pattern that
is already normalized (non-negative with maximum absolute value 1) is
left unchanged element-wise. -/
theorem normalizeTarget_max_one_and_idempotent (t : List ℚ)
    (h2 : ∃ x ∈ t, x ≠ 0) :
    npMax ((normalizeTarget t).map fun y => |y|) = 1 ∧
    ((∀ x ∈ t, 0 ≤ x) → npMax (t.map fun y => |y|) = 1 →
      normalizeTarget t = t) := by
  have hm : 0 < npMax (t.map fun y => |y|) := npMax_abs_pos h2
  constructor
  · have habs : (normalizeTarget t).map (fun y => |y|) =
        (t.map fun y => |y|).map fun x => x / npMax (t.map fun y => |y|) := by
      simp only [normalizeTarget, List.map_map]
      refine List.map_congr_left ?_
      intro a _
      simp only [Function.comp_apply]
      exact abs_of_nonneg (div_nonneg (abs_nonneg a) hm.le)
    rw [habs, npMax_map_div _ _ hm, div_self (ne_of_gt hm)]
  · intro hnn hmax
    have hpt : ∀ x ∈ t, |x| / npMax (t.map fun y => |y|) = x := by
      intro x hx
      rw [hmax, div_one, abs_of_nonneg (hnn x hx)]
    calc normalizeTarget t = t.map fun x => x := List.map_congr_left hpt
    _ = t := List.map_id t

/-- C10: the normalization step takes absolute values before dividing by
the maximum magnitude, so even for patterns with negative samples every
entry of the normalized target lies in the interval [0, 1]. -/
theorem normalizeTarget_entries_unit_interval (t : List ℚ)
    (h2 : ∃ x ∈ t, x ≠ 0) :
    ∀ y ∈ normalizeTarget t, 0 ≤ y ∧ y ≤ 1 := by
  have hm : 0 < npMax (t.map fun y => |y|) := npMax_abs_pos h2
  intro y hy
  obtain ⟨x, hx, rfl⟩ := List.mem_map.mp hy
  refine ⟨div_nonneg (abs_nonneg x) hm.le, ?_⟩
  rw [div_le_one hm]
  exact le_npMax_of_mem (List.mem_map_of_mem _ hx)

/-- Concrete instance of C3 at `target = [3, 4]`, `nSamples = 2`, with the
real square root. -/
theorem evalAntenna_failure_degraded_witness :
    (([(3:ℚ), 4] : List ℚ).length = 2) ∧
    ((∃ out, evalAntenna (fun q : ℚ => Real.sqrt (q : ℝ)) none 2
        [0, 0, 0, 0, 0, 1, 1, 1, 1, 1] (some []) (some [3, 4]) = some out ∧
      out.gain = List.replicate 2 0) ∧
    error_function (fun q : ℚ => Real.sqrt (q : ℝ)) none 2 [] [3, 4]
        [0, 0, 0, 0, 0, 1, 1, 1, 1, 1] =
      some (npNorm (fun q : ℚ => Real.sqrt (q : ℝ)) [3, 4],
        [] ++ [npNorm (fun q : ℚ => Real.sqrt (q : ℝ)) [3, 4]])) :=
  ⟨rfl, evalAntenna_failure_degraded _ 2 _ [] [3, 4] rfl⟩

/-- Concrete instance of C4: a successful oracle query of 3 samples with
`nSamples = 3` yields a gain curve of exactly 3 entries. -/
theorem evalAntenna_length_invariant_witness :
    (∀ g, (some [(1:ℚ), 2, 3] : Option (List ℚ)) = some g → g.length = 3) ∧
    evalAntenna (fun q : ℚ => Real.sqrt (q : ℝ)) (some [1, 2, 3]) 3
        [0, 0, 0, 0, 0, 1, 1, 1, 1, 1] none none =
      some ⟨[1, 2, 3], [0, 0, 0, 0, 0, 1, 1, 1, 1, 1], [0, 0, 0, 0, 0],
        [1, 1, 1, 1, 1], []⟩ ∧
    (⟨[(1:ℚ), 2, 3], [0, 0, 0, 0, 0, 1, 1, 1, 1, 1], [0, 0, 0, 0, 0],
        [1, 1, 1, 1, 1], []⟩ : EvalOutcome).gain.length = 3 := by
  have h1 : ∀ g, (some [(1:ℚ), 2, 3] : Option (List ℚ)) = some g →
      g.length = 3 := by
    intro g hg
    cases hg
    rfl
  have h2 : evalAntenna (fun q : ℚ => Real.sqrt (q : ℝ)) (some [1, 2, 3]) 3
      [0, 0, 0, 0, 0, 1, 1, 1, 1, 1] none none =
      some ⟨[1, 2, 3], [0, 0, 0, 0, 0, 1, 1, 1, 1, 1], [0, 0, 0, 0, 0],
        [1, 1, 1, 1, 1], []⟩ := by
    norm_num [evalAntenna, clampAmps, clampAmp, ampFloor, gainData, N,
      List.take, List.drop]
  exact ⟨h1, h2, evalAntenna_length_invariant _ _ _ _ _ _ _ h1 h2⟩

/-- Concrete instance of C5: amplitudes `1/2000` and `-1/2000` (magnitude
below ε) are presented as exactly ε, amplitudes `1`, `-2` and `1/1000`
(magnitude at least ε) pass through unchanged, and the phases are not
clamped. -/
theorem evalAntenna_amp_floor_witness :
    ([0, 0, 0, 0, 0, 1/2000, -1/2000, 1, -2, 1/1000] : List ℚ).length = 2 * N ∧
    evalAntenna (fun q : ℚ => Real.sqrt (q : ℝ)) none 0
        [0, 0, 0, 0, 0, 1/2000, -1/2000, 1, -2, 1/1000] none none =
      some ⟨[], [0, 0, 0, 0, 0, 1/1000, 1/1000, 1, -2, 1/1000],
        [0, 0, 0, 0, 0], [1/1000, 1/1000, 1, -2, 1/1000], []⟩ ∧
    ((⟨[], [0, 0, 0, 0, 0, 1/1000, 1/1000, 1, -2, 1/1000], [0, 0, 0, 0, 0],
        [1/1000, 1/1000, 1, -2, 1/1000], []⟩ : EvalOutcome).presentedPhases =
      ([0, 0, 0, 0, 0, 1/2000, -1/2000, 1, -2, 1/1000] : List ℚ).take N ∧
    (⟨[], [0, 0, 0, 0, 0, 1/1000, 1/1000, 1, -2, 1/1000], [0, 0, 0, 0, 0],
        [1/1000, 1/1000, 1, -2, 1/1000], []⟩ : EvalOutcome).presentedAmps =
      (([0, 0, 0, 0, 0, 1/2000, -1/2000, 1, -2, 1/1000] : List ℚ).drop N).map
        clampAmp ∧
    (∀ a : ℚ, |a| < ampFloor → clampAmp a = ampFloor) ∧
    (∀ a : ℚ, ampFloor ≤ |a| → clampAmp a = a)) := by
  have hx : ([0, 0, 0, 0, 0, 1/2000, -1/2000, 1, -2, 1/1000] : List ℚ).length
      = 2 * N := by
    norm_num [N]
  have h2 : evalAntenna (fun q : ℚ => Real.sqrt (q : ℝ)) none 0
      [0, 0, 0, 0, 0, 1/2000, -1/2000, 1, -2, 1/1000] none none =
      some ⟨[], [0, 0, 0, 0, 0, 1/1000, 1/1000, 1, -2, 1/1000],
        [0, 0, 0, 0, 0], [1/1000, 1/1000, 1, -2, 1/1000], []⟩ := by
    norm_num [evalAntenna, clampAmps, clampAmp, ampFloor, gainData, N,
      List.take, List.drop, abs_of_nonneg, abs_of_nonpos]
  exact ⟨hx, h2, evalAntenna_amp_floor _ _ _ _ _ _ _ hx h2⟩

/-- Concrete instance of C6 at `observed = [1, 2]`, `target = [3, 4]`. -/
theorem error_function_l2_and_trace_witness :
    ((gainData (some [(1:ℚ), 2]) 2).length = ([(3:ℚ), 4] : List ℚ).length) ∧
    error_function (fun q : ℚ => Real.sqrt (q : ℝ)) (some [1, 2]) 2 [] [3, 4]
        [0, 0, 0, 0, 0, 1, 1, 1, 1, 1] =
      some (npNorm (fun q : ℚ => Real.sqrt (q : ℝ))
          (List.zipWith (fun a b => a - b) (gainData (some [1, 2]) 2) [3, 4]),
        [] ++ [npNorm (fun q : ℚ => Real.sqrt (q : ℝ))
          (List.zipWith (fun a b => a - b) (gainData (some [1, 2]) 2) [3, 4])]) :=
  ⟨rfl, error_function_l2_and_trace _ _ _ _ _ _ rfl⟩

/-- Concrete instance of C7: one completed evaluation extends the empty
trace to length one and keeps it as a prefix. -/
theorem runTrace_append_only_witness :
    runTrace (fun q : ℚ => Real.sqrt (q : ℝ)) 2 [0, 0]
        [(some [0, 0], [0, 0, 0, 0, 0, 1, 1, 1, 1, 1])] [] =
      some [npNorm (fun q : ℚ => Real.sqrt (q : ℝ)) [0, 0]] ∧
    ([npNorm (fun q : ℚ => Real.sqrt (q : ℝ)) [0, 0]].length =
      ([] : List ℝ).length +
        ([(some [0, 0], [0, 0, 0, 0, 0, 1, 1, 1, 1, 1])] :
          List (Option (List ℚ) × List ℚ)).length ∧
     ∃ tail, [npNorm (fun q : ℚ => Real.sqrt (q : ℝ)) [0, 0]] = [] ++ tail) := by
  have h : runTrace (fun q : ℚ => Real.sqrt (q : ℝ)) 2 [0, 0]
      [(some [0, 0], [0, 0, 0, 0, 0, 1, 1, 1, 1, 1])] [] =
      some [npNorm (fun q : ℚ => Real.sqrt (q : ℝ)) [0, 0]] := by
    simp [runTrace, evalAntenna, npSub, gainData]
  exact ⟨h, runTrace_append_only _ _ _ _ _ _ h⟩

/-- Concrete instance of C9 at the pattern `[-2, 1]`. -/
theorem normalizeTarget_max_one_witness :
    (∃ x ∈ [(-2:ℚ), 1], x ≠ 0) ∧
    (npMax ((normalizeTarget [(-2:ℚ), 1]).map fun y => |y|) = 1 ∧
     ((∀ x ∈ [(-2:ℚ), 1], 0 ≤ x) → npMax ([(-2:ℚ), 1].map fun y => |y|) = 1 →
       normalizeTarget [(-2:ℚ), 1] = [(-2:ℚ), 1])) := by
  have h2 : ∃ x ∈ [(-2:ℚ), 1], x ≠ 0 :=
    ⟨-2, List.mem_cons_self _ _, by norm_num⟩
  exact ⟨h2, normalizeTarget_max_one_and_idempotent _ h2⟩

/-- Concrete instance of C10 at the pattern `[0, -3]`, which contains a
negative sample. -/
theorem normalizeTarget_unit_interval_witness :
    (∃ x ∈ [(0:ℚ), -3], x ≠ 0) ∧
    (∀ y ∈ normalizeTarget [(0:ℚ), -3], 0 ≤ y ∧ y ≤ 1) := by
  have h2 : ∃ x ∈ [(0:ℚ), -3], x ≠ 0 := ⟨-3, by simp, by norm_num⟩
  exact ⟨h2, normalizeTarget_entries_unit_interval _ h2⟩

end ArrayOptimizer
